import Mathlib

/-!
Verification development for the BLE accelerometer streaming engine
(`useBle.ts`, current revision) and its base64 utility (`utils/base64.ts`).

Bytes are modelled as `List ℕ` (each element `< 256`, the `Uint8Array`
element invariant, carried as a hypothesis where it matters).  JavaScript
numbers are modelled as `JSNum`: exact rationals plus the non-finite
values `nan` and `±inf`.  All divisions performed by the decoder are by
powers of two on values of small magnitude, hence exact in IEEE-754
double precision, so the rational model is value-faithful.
-/

/-- A JavaScript number: NaN, signed infinity, or a finite value
(modelled exactly as a rational; every value the decoder produces is a
dyadic rational, exactly representable in an IEEE-754 double). -/
inductive JSNum where
  | nan : JSNum
  | inf : Bool → JSNum
  | fin : ℚ → JSNum
deriving DecidableEq

/-- JavaScript boolean coercion of a number (`if (x)`): `0`, `-0` and
`NaN` are falsy, everything else (infinities included) is truthy. -/
def JSNum.truthy : JSNum → Bool
  | .nan => false
  | .inf _ => true
  | .fin q => decide (q ≠ 0)

/-- `|n| ≤ b` for a finite JS number; non-finite values fail the bound. -/
def JSNum.absLe (n : JSNum) (b : ℚ) : Bool :=
  match n with
  | .fin q => decide (|q| ≤ b)
  | _ => false

/-- Indexing a byte buffer.  Every read `parseAccel` performs is guarded
in range by a `byteLength` test, so the out-of-range default is never
observable there. -/
def byteAt (b : List ℕ) (i : ℕ) : ℕ := b.getD i 0

/-- `DataView.getInt16(off, le)`: two bytes assembled in the requested
endianness, reinterpreted as a two's-complement 16-bit signed integer. -/
def getInt16 (b : List ℕ) (off : ℕ) (le : Bool) : ℤ :=
  let lo := if le then byteAt b off else byteAt b (off + 1)
  let hi := if le then byteAt b (off + 1) else byteAt b off
  let u := hi * 256 + lo
  if u < 32768 then (u : ℤ) else (u : ℤ) - 65536

/-- `DataView.getFloat32(off, le)`: four bytes assembled in the requested
endianness and decoded as an IEEE-754 binary32 value.  Exponent 255 gives
infinity (zero mantissa) or NaN; exponent 0 gives a subnormal
`m · 2⁻¹⁴⁹`; otherwise the normal value `(2²³ + m) · 2^(e−150)`, written
with natural-number powers so the rational is exact. -/
def getFloat32 (b : List ℕ) (off : ℕ) (le : Bool) : JSNum :=
  let b0 := byteAt b off
  let b1 := byteAt b (off + 1)
  let b2 := byteAt b (off + 2)
  let b3 := byteAt b (off + 3)
  let bits : ℕ := if le then ((b3 * 256 + b2) * 256 + b1) * 256 + b0
              else ((b0 * 256 + b1) * 256 + b2) * 256 + b3
  let s : ℕ := bits / 2 ^ 31
  let e : ℕ := (bits / 2 ^ 23) % 2 ^ 8
  let m : ℕ := bits % 2 ^ 23
  if e = 255 then (if m = 0 then .inf (s == 1) else .nan)
  else
    let mag : ℚ :=
      if e = 0 then (m : ℚ) / ((2 ^ 149 : ℕ) : ℚ)
      else (((2 ^ 23 + m) * 2 ^ e : ℕ) : ℚ) / ((2 ^ 150 : ℕ) : ℚ)
    .fin (if s == 1 then -mag else mag)

/-- A decoded 3-axis sample (`Accel` in the source). -/
structure Accel where
  x : JSNum
  y : JSNum
  z : JSNum
deriving DecidableEq

/-- The zero vector `{x: 0, y: 0, z: 0}`. -/
def zeroAccel : Accel := ⟨.fin 0, .fin 0, .fin 0⟩

/-- `toFloat32` helper of `parseAccel`: three consecutive float32 reads. -/
def toFloat32 (b : List ℕ) (off : ℕ) (le : Bool) : JSNum × JSNum × JSNum :=
  (getFloat32 b off le, getFloat32 b (off + 4) le, getFloat32 b (off + 8) le)

/-- `toInt16Triplet` helper of `parseAccel`: three consecutive int16 reads. -/
def toInt16Triplet (b : List ℕ) (off : ℕ) (le : Bool) : ℤ × ℤ × ℤ :=
  (getInt16 b off le, getInt16 b (off + 2) le, getInt16 b (off + 4) le)

/-- The ordered divisor set of `normalizeInt16`
(±2g, ±4g, ±8g, ±16g full-scale codes). -/
def divisors : List ℚ := [16384, 8192, 4096, 2048]

/-- The `for (const d of divisors)` loop of `normalizeInt16` with its
early `return`.  The `Number.isFinite` conjunct of the source guard is
identically true here: the inputs are integers and the divisors are
nonzero, so the quotient is always a finite number. -/
def normLoop (x y z : ℤ) : List ℚ → ℚ × ℚ × ℚ
  | [] => ((x : ℚ) / 16384, (y : ℚ) / 16384, (z : ℚ) / 16384)
  | d :: rest =>
    if |(x : ℚ) / d| ≤ 32 ∧ |(y : ℚ) / d| ≤ 32 ∧ |(z : ℚ) / d| ≤ 32 then
      ((x : ℚ) / d, (y : ℚ) / d, (z : ℚ) / d)
    else normLoop x y z rest

/-- `normalizeInt16(xyz)`: first divisor whose quotients all lie within
±32, with the 16384 default when none qualifies. -/
def normalizeInt16 (t : ℤ × ℤ × ℤ) : ℚ × ℚ × ℚ := normLoop t.1 t.2.1 t.2.2 divisors

/-- Packages a rational triplet as a finite `Accel`. -/
def finAccel (t : ℚ × ℚ × ℚ) : Accel := ⟨.fin t.1, .fin t.2.1, .fin t.2.2⟩

/-- `raw.some(v => v !== 0)` on an int16 triplet. -/
def tripletNonzero (t : ℤ × ℤ × ℤ) : Bool :=
  decide (t.1 ≠ 0) || decide (t.2.1 ≠ 0) || decide (t.2.2 ≠ 0)

/-- Step 5 of `parseAccel`: byte-triple fallback (signed bytes scaled by
1/128, then the unsigned re-centred reading), else the zero vector. -/
def parseStage5 (b : List ℕ) : Accel :=
  if b.length ≥ 3 then
    let sx : ℤ := if byteAt b 0 > 127 then (byteAt b 0 : ℤ) - 256 else (byteAt b 0 : ℤ)
    let sy : ℤ := if byteAt b 1 > 127 then (byteAt b 1 : ℤ) - 256 else (byteAt b 1 : ℤ)
    let sz : ℤ := if byteAt b 2 > 127 then (byteAt b 2 : ℤ) - 256 else (byteAt b 2 : ℤ)
    if sx ≠ 0 ∨ sy ≠ 0 ∨ sz ≠ 0 then
      ⟨.fin ((sx : ℚ) / 128), .fin ((sy : ℚ) / 128), .fin ((sz : ℚ) / 128)⟩
    else
      let ux : ℤ := byteAt b 0
      let uy : ℤ := byteAt b 1
      let uz : ℤ := byteAt b 2
      if ux ≠ 0 ∨ uy ≠ 0 ∨ uz ≠ 0 then
        ⟨.fin (((ux : ℚ) - 128) / 128), .fin (((uy : ℚ) - 128) / 128),
         .fin (((uz : ℚ) - 128) / 128)⟩
      else zeroAccel
  else zeroAccel

/-- Step 4 of `parseAccel`: int16 triplet at a 2-byte offset (2-byte
header convention), little- then big-endian. -/
def parseStage4 (b : List ℕ) : Accel :=
  if b.length ≥ 8 then
    let rawLE := toInt16Triplet b 2 true
    if tripletNonzero rawLE then finAccel (normalizeInt16 rawLE)
    else
      let rawBE := toInt16Triplet b 2 false
      if tripletNonzero rawBE then finAccel (normalizeInt16 rawBE)
      else parseStage5 b
  else parseStage5 b

/-- Step 3 of `parseAccel`: int16 triplet over the last 6 bytes
(`bytes.slice(byteLength - 6)`), little- then big-endian. -/
def parseStage3 (b : List ℕ) : Accel :=
  if b.length ≥ 6 then
    let tail := b.drop (b.length - 6)
    let rawLE := toInt16Triplet tail 0 true
    if tripletNonzero rawLE then finAccel (normalizeInt16 rawLE)
    else
      let rawBE := toInt16Triplet tail 0 false
      if tripletNonzero rawBE then finAccel (normalizeInt16 rawBE)
      else parseStage4 b
  else parseStage4 b

/-- Step 2 of `parseAccel`: int16 triplet at offset 0, little- then
big-endian. -/
def parseStage2 (b : List ℕ) : Accel :=
  if b.length ≥ 6 then
    let rawLE := toInt16Triplet b 0 true
    if tripletNonzero rawLE then finAccel (normalizeInt16 rawLE)
    else
      let rawBE := toInt16Triplet b 0 false
      if tripletNonzero rawBE then finAccel (normalizeInt16 rawBE)
      else parseStage3 b
  else parseStage3 b

/-- `parseAccel(bytes)`: layered format heuristic.  Step 1 tries three
little-endian float32 values at offset 0, retrying big-endian, accepting
a triplet with any truthy component; later steps are split out as
`parseStage2`–`parseStage5` mirroring the source's sequential fall-through.
All `DataView` reads are range-guarded, so the source's `try`/`catch`
wrappers never observe an exception. -/
def parseAccel (b : List ℕ) : Accel :=
  if b.length ≥ 12 then
    let f := toFloat32 b 0 true
    if f.1.truthy || f.2.1.truthy || f.2.2.truthy then ⟨f.1, f.2.1, f.2.2⟩
    else
      let g := toFloat32 b 0 false
      if g.1.truthy || g.2.1.truthy || g.2.2.truthy then ⟨g.1, g.2.1, g.2.2⟩
      else parseStage2 b
  else parseStage2 b

/-! ### base64 (`utils/base64.ts`) -/

/-- The base64 alphabet (`lookup` in both source functions). -/
def b64Alphabet : String :=
  "ABCDEFGHIJKLMNOPQRSTUVWXYZabcdefghijklmnopqrstuvwxyz0123456789+/"

/-- Alphabet as a character list. -/
def b64Chars : List Char := b64Alphabet.toList

/-- `lookup[k]` for the in-range indices (`k < 64`) the encoder uses. -/
def b64Char (k : ℕ) : Char := b64Chars.getD k 'A'

/-- `bytesToBase64`, character-list form.  The source packs three bytes
as `(b0 << 16) | (b1 << 8) | b2`; with bytes below 256 the disjoint-bit
`or` is addition, and `(n >> j) & 63` is `n / 2^j % 64`.  The trailing
one- and two-byte groups are padded with `=` exactly as in the source. -/
def b64Encode : List ℕ → List Char
  | b0 :: b1 :: b2 :: rest =>
    let n := (b0 * 256 + b1) * 256 + b2
    b64Char (n / 2 ^ 18 % 64) :: b64Char (n / 2 ^ 12 % 64) ::
      b64Char (n / 2 ^ 6 % 64) :: b64Char (n % 64) :: b64Encode rest
  | [b0] =>
    let n := b0 * 2 ^ 16
    [b64Char (n / 2 ^ 18 % 64), b64Char (n / 2 ^ 12 % 64), '=', '=']
  | [b0, b1] =>
    let n := (b0 * 256 + b1) * 256
    [b64Char (n / 2 ^ 18 % 64), b64Char (n / 2 ^ 12 % 64), b64Char (n / 2 ^ 6 % 64), '=']
  | [] => []

/-- `bytesToBase64(bytes)` producing the base64 string. -/
def bytesToBase64 (bytes : List ℕ) : String := ⟨b64Encode bytes⟩

/-- The character loop of `base64ToBytes`: stop at `=`, skip characters
outside the alphabet (`indexOf` is `-1`), otherwise shift six bits in
and emit a byte whenever eight are available.  The source accumulates in
a JS 32-bit integer; the emitted byte reads only bit positions
`bits..bits+7 ⊆ [0,14)` of the accumulator, on which the unbounded
natural-number accumulator and the wrapped 32-bit one agree, so the
model keeps the accumulator unbounded. -/
def b64DecodeLoop : List Char → ℕ → ℕ → List ℕ
  | [], _, _ => []
  | c :: cs, buffer, bits =>
    if c = '=' then []
    else
      match b64Chars.indexOf? c with
      | none => b64DecodeLoop cs buffer bits
      | some val =>
        let buffer' := buffer * 64 + val
        let bits' := bits + 6
        if 8 ≤ bits' then
          (buffer' / 2 ^ (bits' - 8)) % 256 :: b64DecodeLoop cs buffer' (bits' - 8)
        else b64DecodeLoop cs buffer' bits'

/-- `base64ToBytes(b64)`. -/
def base64ToBytes (b64 : String) : List ℕ := b64DecodeLoop b64.data 0 0

/-! ### Candidate scorer (`subscribeAuto`, discovery pass) -/

/-- Snapshot of one characteristic's capability flags, as read from the
platform objects in `subscribeAuto` / `trySubscribeOnce`. -/
structure GattChar where
  uuid : List Char
  isNotifiable : Bool
  isIndicatable : Bool
  isWritableWithResponse : Bool
  isWritableWithoutResponse : Bool
deriving DecidableEq

/-- JS `hay.includes(needle)` on strings (contiguous substring test). -/
def jsIncludes (hay needle : List Char) : Bool :=
  match hay with
  | [] => needle.isEmpty
  | _ :: t => needle.isPrefixOf hay || jsIncludes t needle

/-- JS `toLowerCase()` (uuids are ASCII hex and dashes). -/
def toLowerStr (s : List Char) : List Char := s.map Char.toLower

/-- The fixed deny-list of standard services
(GAP, GATT, Device Information, HID, Battery). -/
def skipServicesStrs : List String :=
  ["00001800", "00001801", "0000180a", "00001812", "0000180f"]

/-- Deny-listed service short identifiers as character lists. -/
def skipServicesList : List (List Char) := skipServicesStrs.map String.toList

/-- `skipServices.some(s => svcLower.includes(s))`. -/
def isSkippedService (svcUuid : List Char) : Bool :=
  skipServicesList.any (fun s => jsIncludes (toLowerStr svcUuid) s)

/-- The fixed deny-list of standard system characteristics
(service-changed, peripheral-preferred-connection, report). -/
def skipCharsStrs : List String := ["00002a05", "00002a22", "00002a4d"]

/-- Deny-listed characteristic short identifiers as character lists. -/
def skipCharsList : List (List Char) := skipCharsStrs.map String.toList

/-- `skipChars.some(s => u.includes(s))` on the lowercased uuid. -/
def isSkippedChar (u : List Char) : Bool :=
  skipCharsList.any (fun s => jsIncludes u s)

/-- The vendor/sensor-convention fragments earning the +1 bonus. -/
def fragStrs : List String := ["ff", "fe", "fee1", "fee3", "2a37"]

/-- Fragment lists for the +1 bonus test. -/
def fragList : List (List Char) := fragStrs.map String.toList

/-- `u.includes('ff') || u.includes('fe') || ...` on the lowercased uuid. -/
def fragMatch (u : List Char) : Bool := fragList.any (fun f => jsIncludes u f)

/-- `(c as any).isNotifiable || (c as any).isIndicatable || false`. -/
def notifiableOf (c : GattChar) : Bool := c.isNotifiable || c.isIndicatable

/-- `c.isWritableWithResponse || c.isWritableWithoutResponse`. -/
def writableOf (c : GattChar) : Bool :=
  c.isWritableWithResponse || c.isWritableWithoutResponse

/-- `chars.some(c => c.isWritableWithResponse || c.isWritableWithoutResponse)`. -/
def hasWritableIn (chars : List GattChar) : Bool := chars.any writableOf

/-- The score computed in the candidate loop: `+2` when the service has a
writable characteristic, `+1` when the lowercased uuid matches a
convention fragment. -/
def charScore (hasW : Bool) (u : List Char) : ℕ :=
  (if hasW then 2 else 0) + (if fragMatch u then 1 else 0)

/-- One entry of the `candidates` array built by `subscribeAuto`. -/
structure Candidate where
  svc : List Char
  chr : List Char
  score : ℕ
deriving DecidableEq

/-- The per-service candidate loop of `subscribeAuto`: skip deny-listed
services entirely; keep the notifiable, non-deny-listed characteristics
(the source's two `continue`s) and assign each its score.  `hasWritable`
is computed over the whole service before the loop, as in the source. -/
def candidatesForService (svcUuid : List Char) (chars : List GattChar) : List Candidate :=
  if isSkippedService svcUuid then []
  else
    let hasW := hasWritableIn chars
    (chars.filter (fun c => notifiableOf c && !isSkippedChar (toLowerStr c.uuid))).map
      (fun c => ⟨svcUuid, c.uuid, charScore hasW (toLowerStr c.uuid)⟩)

/-- All candidates over the enumerated services, ordered by descending
score (`candidates.sort((a, b) => b.score - a.score)`, a stable sort). -/
def buildCandidates (svcs : List (List Char × List GattChar)) : List Candidate :=
  ((svcs.map (fun p => candidatesForService p.1 p.2)).flatten).mergeSort
    (fun a b => b.score ≤ a.score)

/-! ### Display throttle and recording (`updateAccel`) -/

/-- One recorded row `{t, x, y, z}`. -/
structure AccelRow where
  t : ℤ
  x : JSNum
  y : JSNum
  z : JSNum
deriving DecidableEq

/-- The mutable cells `updateAccel` touches: `lastUiUpdateRef`,
`recordingRef`, the displayed `accel` value and the recorded `rows`. -/
structure UiState where
  lastUiUpdate : ℤ
  recording : Bool
  accel : Option Accel
  rows : List AccelRow
deriving DecidableEq

/-- `updateAccel(value)` at time `now`: update the displayed value only
when at least 33 ms have passed, then append a recorded row whenever
recording is active. -/
def updateAccel (now : ℤ) (value : Accel) (s : UiState) : UiState :=
  let s1 := if 33 ≤ now - s.lastUiUpdate
    then { s with lastUiUpdate := now, accel := some value } else s
  if s1.recording then
    { s1 with rows := s1.rows ++ [⟨now, value.x, value.y, value.z⟩] } else s1

/-! ### Reconnect backoff (`connectTo`, `onDeviceDisconnected` handler) -/

/-- `const delays = [500, 1000, 2000, 4000, 8000]`. -/
def reconnectDelays : List ℕ := [500, 1000, 2000, 4000, 8000]

/-- The observable reconnect bookkeeping: `reconnectAttemptsRef`, how
many times the terminal "reconnect attempts exceeded" error has been
reported, and the backoff delays scheduled so far. -/
structure ReconnState where
  attempts : ℕ
  exceededReports : ℕ
  scheduled : List ℕ
deriving DecidableEq

/-- One run of the `onDeviceDisconnected` handler body (reconnect part,
with `disconnectRequested` false): report the terminal error and stop
when the counter has reached the schedule length, otherwise take the
current counter value as the attempt index, increment the counter and
schedule that attempt's delay. -/
def handleUnexpectedDisconnect (s : ReconnState) : ReconnState × Option ℕ :=
  if reconnectDelays.length ≤ s.attempts then
    ({ s with exceededReports := s.exceededReports + 1 }, none)
  else
    let delay := reconnectDelays.getD s.attempts 0
    ({ s with attempts := s.attempts + 1, scheduled := s.scheduled ++ [delay] }, some delay)

/-- A reconnect cascade: each list element is the outcome of one
scheduled attempt.  A failed attempt triggers the next disconnect
callback (per the source comment); a successful one resets the counter
(`reconnectAttemptsRef.current = 0`).  When the handler schedules
nothing, no attempt runs and the cascade stops. -/
def runReconnectCascade (s : ReconnState) : List Bool → ReconnState
  | [] => s
  | ok :: rest =>
    match handleUnexpectedDisconnect s with
    | (s1, none) => s1
    | (s1, some _) =>
      if ok then runReconnectCascade { s1 with attempts := 0 } rest
      else runReconnectCascade s1 rest

/-! ### Connection lifecycle with a pending backoff timer (`connectTo`,
`disconnect`) -/

/-- Manager state across the disconnect/reconnect callbacks:
`connected`, `disconnectRequestedRef`, `reconnectAttemptsRef`, and
whether a backoff `setTimeout` is pending. -/
structure MgrState where
  connected : Bool
  disconnectRequested : Bool
  attempts : ℕ
  timerPending : Bool
deriving DecidableEq

/-- The asynchronous events acting on `MgrState`. -/
inductive MgrEvent where
  | unexpectedDrop
  | userDisconnect
  | timerFires (reconnectSucceeds : Bool)
deriving DecidableEq

/-- Event semantics read off the source.  `unexpectedDrop` runs the
`onDeviceDisconnected` handler: return early when `disconnectRequested`,
report-and-stop when attempts are exhausted, else increment the counter
and schedule the backoff timer.  `userDisconnect` is `disconnect()`: set
`disconnectRequested`, tear the link down — the source cancels no timer.
`timerFires` is the backoff callback: it calls `connectToDevice`
unconditionally, never consulting `disconnectRequested`; on success it
sets the connection and resets the counter. -/
def mgrStep (s : MgrState) : MgrEvent → MgrState
  | .unexpectedDrop =>
    let s0 := { s with connected := false }
    if s0.disconnectRequested then s0
    else if reconnectDelays.length ≤ s0.attempts then s0
    else { s0 with attempts := s0.attempts + 1, timerPending := true }
  | .userDisconnect =>
    { s with disconnectRequested := true, connected := false }
  | .timerFires ok =>
    if s.timerPending then
      if ok then { s with timerPending := false, connected := true, attempts := 0 }
      else { s with timerPending := false }
    else s

/-- A run of manager events from a given state. -/
def mgrRun (s : MgrState) (es : List MgrEvent) : MgrState := es.foldl mgrStep s

/-! ### Subscription trials (`subscribeAuto`, `trySubscribeOnce`,
`stopNotifications`) -/

/-- The finset denoted by an optional subscription handle. -/
def optSet : Option ℕ → Finset ℕ
  | none => ∅
  | some k => {k}

/-- Subscription bookkeeping: `subscriptionRef` (the promoted active
subscription), the in-flight trial's temporary subscription, and the set
of subscriptions currently live at the platform. -/
structure SubState where
  active : Option ℕ
  temp : Option ℕ
  live : Finset ℕ

/-- Events of the trial protocol. -/
inductive SubEvent where
  | startTrial (k : ℕ)
  | promote
  | timeoutMiss
  | stopAll

/-- Event semantics read off the source.  `startTrial k` is one
iteration of the `subscribeAuto` loop: release and null the lingering
`subscriptionRef`, then `monitorCharacteristicForService` creates the
fresh platform subscription `k` (`await` sequencing keeps one trial in
flight, and the platform hands out a handle that is not already live;
ill-formed events are no-ops).  `promote` is the first-meaningful-payload
path of `trySubscribeOnce`: release `subscriptionRef` and promote the
temp subscription into it.  `timeoutMiss` is the 8 s timeout cleanup:
release the temp subscription.  `stopAll` is `stopNotifications`:
release and null `subscriptionRef`. -/
def subStep (s : SubState) : SubEvent → SubState
  | .startTrial k =>
    if s.temp = none ∧ k ∉ s.live \ optSet s.active then
      { active := none, temp := some k, live := (s.live \ optSet s.active) ∪ {k} }
    else s
  | .promote =>
    match s.temp with
    | some k => { active := some k, temp := none, live := s.live \ optSet s.active }
    | none => s
  | .timeoutMiss =>
    match s.temp with
    | some k => { s with temp := none, live := s.live.erase k }
    | none => s
  | .stopAll =>
    { s with active := none, live := s.live \ optSet s.active }

/-- The idle initial state: no subscription anywhere. -/
def subInit : SubState := ⟨none, none, ∅⟩

/-! ## Helper lemmas -/

/-- Reading any index of an all-zero buffer yields 0 (the out-of-range
default coincides). -/
lemma byteAt_all_zero {b : List ℕ} (h : ∀ x ∈ b, x = 0) (i : ℕ) : byteAt b i = 0 := by
  induction b generalizing i with
  | nil => simp [byteAt]
  | cons a t ih =>
    cases i with
    | zero => simpa [byteAt] using h a (by simp)
    | succ j =>
      have := ih (fun x hx => h x (by simp [hx])) j
      simpa [byteAt] using this

/-- All int16 reads of an all-zero buffer are 0. -/
lemma getInt16_all_zero {b : List ℕ} (h : ∀ x ∈ b, x = 0) (off : ℕ) (le : Bool) :
    getInt16 b off le = 0 := by
  simp [getInt16, byteAt_all_zero h]

/-- All float32 reads of an all-zero buffer give the (falsy) value +0. -/
lemma getFloat32_all_zero {b : List ℕ} (h : ∀ x ∈ b, x = 0) (off : ℕ) (le : Bool) :
    getFloat32 b off le = .fin 0 := by
  simp [getFloat32, byteAt_all_zero h]

/-- Step 5 on an all-zero buffer returns the zero vector. -/
lemma parseStage5_all_zero {b : List ℕ} (h : ∀ x ∈ b, x = 0) :
    parseStage5 b = zeroAccel := by
  simp [parseStage5, byteAt_all_zero h]

/-- Step 4 on an all-zero buffer returns the zero vector. -/
lemma parseStage4_all_zero {b : List ℕ} (h : ∀ x ∈ b, x = 0) :
    parseStage4 b = zeroAccel := by
  simp [parseStage4, toInt16Triplet, getInt16_all_zero h, tripletNonzero,
    parseStage5_all_zero h]

/-- Step 3 on an all-zero buffer returns the zero vector (the 6-byte
tail of an all-zero buffer is all-zero). -/
lemma parseStage3_all_zero {b : List ℕ} (h : ∀ x ∈ b, x = 0) :
    parseStage3 b = zeroAccel := by
  have htail : ∀ x ∈ b.drop (b.length - 6), x = 0 :=
    fun x hx => h x (List.mem_of_mem_drop hx)
  simp [parseStage3, toInt16Triplet, getInt16_all_zero htail, tripletNonzero,
    parseStage4_all_zero h]

/-- Step 2 on an all-zero buffer returns the zero vector. -/
lemma parseStage2_all_zero {b : List ℕ} (h : ∀ x ∈ b, x = 0) :
    parseStage2 b = zeroAccel := by
  simp [parseStage2, toInt16Triplet, getInt16_all_zero h, tripletNonzero,
    parseStage3_all_zero h]

/-! ## Claims -/

/-- The 6-byte test vector of C1: little-endian int16s 16384, 8192, 4096. -/
def c1Bytes : List ℕ := [0x00, 0x40, 0x00, 0x20, 0x00, 0x10]

/-- The 12-byte test vector of C3: little-endian float32s 1.0, 2.0, 3.0. -/
def c3Bytes : List ℕ :=
  [0x00, 0x00, 0x80, 0x3F, 0x00, 0x00, 0x00, 0x40, 0x00, 0x00, 0x40, 0x40]

/-- C1 (counterexample): on `[00 40 00 20 00 10]` the decoder does NOT
return `{x: 1.0, y: 1.0, z: 1.0}`: the triplet (16384, 8192, 4096) is
divided componentwise by the single divisor 16384, giving y = 0.5 and
z = 0.25. -/
theorem parseAccel_c1_not_unit_vector :
    parseAccel c1Bytes ≠ ⟨.fin 1, .fin 1, .fin 1⟩ := by
  norm_num [c1Bytes, parseAccel, parseStage2, toInt16Triplet, getInt16, byteAt,
    tripletNonzero, normalizeInt16, normLoop, divisors, finAccel,
    abs_of_nonneg, abs_of_nonpos]

/-- C1 (amended): the 6-byte little-endian triplet (16384, 8192, 4096)
decodes under the first divisor 16384 to `{x: 1.0, y: 0.5, z: 0.25}`
— each component the raw value divided by 16384 — and every component
has magnitude at most 32. -/
theorem parseAccel_c1_eval :
    parseAccel c1Bytes =
      ⟨.fin ((16384 : ℚ) / 16384), .fin ((8192 : ℚ) / 16384), .fin ((4096 : ℚ) / 16384)⟩ ∧
    (parseAccel c1Bytes).x.absLe 32 = true ∧ (parseAccel c1Bytes).y.absLe 32 = true ∧
    (parseAccel c1Bytes).z.absLe 32 = true := by
  refine ⟨?_, ?_, ?_, ?_⟩ <;>
    norm_num [c1Bytes, parseAccel, parseStage2, toInt16Triplet, getInt16, byteAt,
      tripletNonzero, normalizeInt16, normLoop, divisors, finAccel, JSNum.absLe,
      abs_of_nonneg, abs_of_nonpos]

/-- C2: `parseAccel` returns the zero vector on every buffer shorter
than 3 bytes, and on every all-zero buffer of any length. -/
theorem parseAccel_short_or_all_zero (b : List ℕ) :
    (b.length < 3 → parseAccel b = zeroAccel) ∧
    ((∀ x ∈ b, x = 0) → parseAccel b = zeroAccel) := by
  constructor
  · intro hlen
    have h12 : ¬ b.length ≥ 12 := by omega
    have h8 : ¬ b.length ≥ 8 := by omega
    have h6 : ¬ b.length ≥ 6 := by omega
    have h3 : ¬ b.length ≥ 3 := by omega
    simp [parseAccel, parseStage2, parseStage3, parseStage4, parseStage5,
      h12, h8, h6, h3]
  · intro hz
    have hf : ∀ off le, (getFloat32 b off le).truthy = false := by
      intro off le
      simp [getFloat32_all_zero hz, JSNum.truthy]
    simp [parseAccel, toFloat32, hf, parseStage2_all_zero hz]

/-- C2 witness: concrete instances of both parts. -/
theorem parseAccel_short_or_all_zero_witness :
    parseAccel [0x7F, 0x33] = zeroAccel ∧ parseAccel [0, 0, 0, 0, 0, 0, 0] = zeroAccel :=
  ⟨(parseAccel_short_or_all_zero [0x7F, 0x33]).1 (by decide),
   (parseAccel_short_or_all_zero [0, 0, 0, 0, 0, 0, 0]).2 (by decide)⟩

/-- C3: the 12-byte little-endian float32 payload for (1.0, 2.0, 3.0)
is accepted by the first interpretation and decodes to
`{x: 1.0, y: 2.0, z: 3.0}`. -/
theorem parseAccel_float32_le_example :
    parseAccel c3Bytes = ⟨.fin 1, .fin 2, .fin 3⟩ := by
  norm_num [c3Bytes, parseAccel, toFloat32, getFloat32, byteAt, JSNum.truthy]

/-- C4 (code bug exhibit): from a connected session, an unexpected drop
schedules a backoff timer; the user then calls `disconnect()`; the
pending timer still fires and, on a successful platform connect,
re-establishes the connection — `setConnected(re)` runs even though
`disconnectRequested` is set, because the timer callback never checks
the flag and `disconnect()` cancels no timer. -/
theorem reconnect_after_user_disconnect_bug :
    (mgrRun ⟨true, false, 0, false⟩
        [.unexpectedDrop, .userDisconnect, .timerFires true]).connected = true ∧
    (mgrRun ⟨true, false, 0, false⟩
        [.unexpectedDrop, .userDisconnect, .timerFires true]).disconnectRequested = true := by
  decide

/-- C5: a cascade of 5 failed reconnect attempts schedules exactly the
five backoff delays and reports nothing; the disconnect event after the
5th failure finds the counter at the schedule length, schedules no 6th
attempt and reports the terminal error exactly once; and a successful
reconnect resets the attempt counter to zero. -/
theorem reconnect_schedule_cap_and_reset :
    runReconnectCascade ⟨0, 0, []⟩ (List.replicate 5 false) = ⟨5, 0, reconnectDelays⟩ ∧
    (∀ ok rest, runReconnectCascade ⟨5, 0, reconnectDelays⟩ (ok :: rest) =
      ⟨5, 1, reconnectDelays⟩) ∧
    (∀ s : ReconnState, s.attempts < reconnectDelays.length →
      (runReconnectCascade s [true]).attempts = 0) := by
  refine ⟨by decide, ?_, ?_⟩
  · intro ok rest
    simp [runReconnectCascade, handleUnexpectedDisconnect, reconnectDelays]
  · intro s hs
    simp [runReconnectCascade, handleUnexpectedDisconnect, Nat.not_le.mpr hs]

/-- C5 witness: the exceeded report fires once at the cap, and a
successful attempt resets the counter from 3 to 0. -/
theorem reconnect_schedule_cap_and_reset_witness :
    runReconnectCascade ⟨5, 0, reconnectDelays⟩ [false] = ⟨5, 1, reconnectDelays⟩ ∧
    (runReconnectCascade ⟨3, 0, []⟩ [true]).attempts = 0 :=
  ⟨reconnect_schedule_cap_and_reset.2.1 false [],
   reconnect_schedule_cap_and_reset.2.2 ⟨3, 0, []⟩ (by decide)⟩

/-- C8: while recording is active, every accepted decoded sample is
appended to the recorded rows with its timestamp regardless of the
33 ms display throttle; the throttle gates only the displayed value. -/
theorem updateAccel_records_despite_throttle (now : ℤ) (v : Accel) (s : UiState)
    (h : s.recording = true) :
    (updateAccel now v s).rows = s.rows ++ [⟨now, v.x, v.y, v.z⟩] ∧
    (updateAccel now v s).accel =
      (if 33 ≤ now - s.lastUiUpdate then some v else s.accel) := by
  unfold updateAccel
  by_cases hc : 33 ≤ now - s.lastUiUpdate <;> simp [hc, h]

/-- C8 witness: a sample arriving 10 ms after the last display update is
recorded but not displayed. -/
theorem updateAccel_records_despite_throttle_witness :
    (updateAccel 10 zeroAccel ⟨0, true, none, []⟩).rows =
      [⟨10, .fin 0, .fin 0, .fin 0⟩] ∧
    (updateAccel 10 zeroAccel ⟨0, true, none, []⟩).accel = none := by
  have h := updateAccel_records_despite_throttle 10 zeroAccel ⟨0, true, none, []⟩ rfl
  refine ⟨by rw [h.1]; rfl, by rw [h.2]; norm_num [zeroAccel]⟩

/-- C9: for every int16-range triplet the very first divisor 16384
already brings all three components within ±32, so `normalizeInt16`
always divides by 16384 — the divisors 8192, 4096, 2048 and the default
fallback are unreachable. -/
theorem normalizeInt16_always_first_divisor (x y z : ℤ)
    (hx : -32768 ≤ x ∧ x ≤ 32767) (hy : -32768 ≤ y ∧ y ≤ 32767)
    (hz : -32768 ≤ z ∧ z ≤ 32767) :
    normalizeInt16 (x, y, z) = ((x : ℚ) / 16384, (y : ℚ) / 16384, (z : ℚ) / 16384) := by
  have key : ∀ w : ℤ, -32768 ≤ w → w ≤ 32767 → |(w : ℚ) / 16384| ≤ 32 := by
    intro w h1 h2
    rw [abs_div, abs_of_pos (by norm_num : (0 : ℚ) < 16384),
      div_le_iff₀ (by norm_num : (0 : ℚ) < 16384)]
    have hw : |(w : ℚ)| ≤ 32768 := by
      rw [abs_le]
      constructor
      · exact_mod_cast (by omega : (-32768 : ℤ) ≤ w)
      · exact_mod_cast (by omega : w ≤ 32768)
    linarith
  simp only [normalizeInt16, divisors, normLoop]
  rw [if_pos ⟨key x hx.1 hx.2, key y hy.1 hy.2, key z hz.1 hz.2⟩]

/-- C9 witness: the C1 triplet normalizes under the 16384 divisor. -/
theorem normalizeInt16_always_first_divisor_witness :
    normalizeInt16 (16384, 8192, 4096) = (1, 1 / 2, 1 / 4) := by
  rw [normalizeInt16_always_first_divisor 16384 8192 4096
    (by norm_num) (by norm_num) (by norm_num)]
  norm_num

/-- The resource-safety invariant for subscriptions: every live platform
subscription is the in-flight temp subscription or the promoted active
one, and a temp and an active subscription are never held at once. -/
def subInv (s : SubState) : Prop :=
  s.live ⊆ optSet s.temp ∪ optSet s.active ∧ ¬(s.temp.isSome ∧ s.active.isSome)

/-- The idle state satisfies the invariant. -/
lemma subInv_init : subInv subInit := by
  constructor
  · simp [subInit]
  · simp [subInit]

/-- Every event preserves the subscription invariant. -/
lemma subInv_step (s : SubState) (h : subInv s) (e : SubEvent) : subInv (subStep s e) := by
  obtain ⟨hsub, hone⟩ := h
  cases e with
  | startTrial k =>
    simp only [subStep]
    by_cases hc : s.temp = none ∧ k ∉ s.live \ optSet s.active
    · rw [if_pos hc]
      refine ⟨?_, by simp⟩
      intro x hx
      rcases Finset.mem_union.mp hx with hx1 | hx2
      · obtain ⟨hxl, hxa⟩ := Finset.mem_sdiff.mp hx1
        have hmem := hsub hxl
        rw [hc.1] at hmem
        simp only [optSet, Finset.empty_union] at hmem
        exact absurd (Finset.mem_sdiff.mpr ⟨hxl, fun hxA => hxa hxA⟩) (by
          exact fun hcontra => (Finset.mem_sdiff.mp hcontra).2 hmem)
      · simp only [optSet, Finset.mem_union]
        exact Or.inl hx2
    · rw [if_neg hc]
      exact ⟨hsub, hone⟩
  | promote =>
    simp only [subStep]
    cases ht : s.temp with
    | none => exact ⟨hsub, hone⟩
    | some k =>
      have ha : s.active = none := by
        cases hA : s.active with
        | none => rfl
        | some j =>
          exact absurd ⟨by rw [ht]; rfl, by rw [hA]; rfl⟩ hone
      refine ⟨?_, by simp⟩
      intro x hx
      obtain ⟨hxl, hxa⟩ := Finset.mem_sdiff.mp hx
      have hmem := hsub hxl
      rw [ht, ha] at hmem
      simp only [optSet, Finset.union_empty] at hmem
      simp only [optSet, Finset.empty_union]
      exact hmem
  | timeoutMiss =>
    simp only [subStep]
    cases ht : s.temp with
    | none => exact ⟨hsub, hone⟩
    | some k =>
      refine ⟨?_, by simp⟩
      intro x hx
      have hxl := Finset.mem_of_mem_erase hx
      have hxk : x ≠ k := Finset.ne_of_mem_erase hx
      have hmem := hsub hxl
      rw [ht] at hmem
      simp only [optSet, Finset.mem_union, Finset.mem_singleton] at hmem
      rcases hmem with h1 | h2
      · exact absurd h1 hxk
      · simp only [optSet, Finset.empty_union]
        exact h2
  | stopAll =>
    simp only [subStep]
    refine ⟨?_, by simp⟩
    intro x hx
    obtain ⟨hxl, hxa⟩ := Finset.mem_sdiff.mp hx
    have hmem := hsub hxl
    rcases Finset.mem_union.mp hmem with h1 | h2
    · simp only [optSet, Finset.union_empty]
      exact h1
    · exact absurd h2 hxa


/-- Under the invariant at most one subscription is live. -/
lemma subInv_card {s : SubState} (h : subInv s) : s.live.card ≤ 1 := by
  obtain ⟨hsub, hone⟩ := h
  have hbound : (optSet s.temp ∪ optSet s.active).card ≤ 1 := by
    cases ht : s.temp with
    | some k =>
      have ha : s.active = none := by
        cases hA : s.active with
        | none => rfl
        | some j => exact absurd ⟨by simp [ht], by simp [hA]⟩ hone
      simp [ht, ha, optSet]
    | none =>
      cases hA : s.active with
      | none => simp [optSet]
      | some j => simp [ht, hA, optSet]
  exact le_trans (Finset.card_le_card hsub) hbound

/-- C6: after any sequence of trial starts, promotions, timeouts and
stops from the idle state, at most one subscription is live — the new
trial's release-before-subscribe discipline never leaves two. -/
theorem subscription_live_card_le_one (es : List SubEvent) :
    ((es.foldl subStep subInit).live).card ≤ 1 := by
  suffices h : ∀ (l : List SubEvent) (s : SubState), subInv s → subInv (l.foldl subStep s) by
    exact subInv_card (h es subInit subInv_init)
  intro l
  induction l with
  | nil => intro s hs; exact hs
  | cons e t ih => intro s hs; exact ih (subStep s e) (subInv_step s hs e)

/-- A notifiable test characteristic with no capability flags set and a
uuid free of deny-list and convention fragments. -/
def witChar : GattChar := ⟨"beef".toList, true, false, false, false⟩

/-- A writable sibling characteristic. -/
def witWriter : GattChar := ⟨"cafe".toList, false, false, true, false⟩

/-- C7: for every notifiable characteristic surviving the deny-lists in
a non-deny-listed service, the scorer produces a candidate scored
`2 + fragment-bonus` when the service holds at least one writable
characteristic and exactly the fragment bonus when it holds none, so the
candidate with a writable sibling scores strictly higher than the
otherwise-identical one without. -/
theorem scorer_writable_sibling_bonus (svcU : List Char) (c : GattChar)
    (chars1 chars2 : List GattChar)
    (hsvc : isSkippedService svcU = false)
    (hnoti : notifiableOf c = true)
    (hskip : isSkippedChar (toLowerStr c.uuid) = false)
    (hc1 : c ∈ chars1) (hc2 : c ∈ chars2)
    (h1 : hasWritableIn chars1 = true)
    (h2 : hasWritableIn chars2 = false) :
    (⟨svcU, c.uuid, 2 + (if fragMatch (toLowerStr c.uuid) then 1 else 0)⟩ : Candidate) ∈
        candidatesForService svcU chars1 ∧
    (⟨svcU, c.uuid, (if fragMatch (toLowerStr c.uuid) then 1 else 0)⟩ : Candidate) ∈
        candidatesForService svcU chars2 ∧
    (if fragMatch (toLowerStr c.uuid) then 1 else 0) <
      2 + (if fragMatch (toLowerStr c.uuid) then 1 else 0) := by
  have hmem1 : c ∈ chars1.filter (fun d => notifiableOf d && !isSkippedChar (toLowerStr d.uuid)) :=
    List.mem_filter.mpr ⟨hc1, by simp [hnoti, hskip]⟩
  have hmem2 : c ∈ chars2.filter (fun d => notifiableOf d && !isSkippedChar (toLowerStr d.uuid)) :=
    List.mem_filter.mpr ⟨hc2, by simp [hnoti, hskip]⟩
  refine ⟨?_, ?_, by omega⟩
  · simp only [candidatesForService, hsvc, Bool.false_eq_true, if_false]
    refine List.mem_map.mpr ⟨c, hmem1, ?_⟩
    simp [charScore, h1]
  · simp only [candidatesForService, hsvc, Bool.false_eq_true, if_false]
    refine List.mem_map.mpr ⟨c, hmem2, ?_⟩
    simp [charScore, h2]

/-- C7 witness: the same notifiable characteristic scored with and
without a writable sibling in the service. -/
theorem scorer_writable_sibling_bonus_witness :
    (⟨"aaaa".toList, witChar.uuid,
        2 + (if fragMatch (toLowerStr witChar.uuid) then 1 else 0)⟩ : Candidate) ∈
      candidatesForService ("aaaa".toList) [witChar, witWriter] ∧
    (⟨"aaaa".toList, witChar.uuid,
        (if fragMatch (toLowerStr witChar.uuid) then 1 else 0)⟩ : Candidate) ∈
      candidatesForService ("aaaa".toList) [witChar] ∧
    (if fragMatch (toLowerStr witChar.uuid) then 1 else 0) <
      2 + (if fragMatch (toLowerStr witChar.uuid) then 1 else 0) :=
  scorer_writable_sibling_bonus ("aaaa".toList) witChar [witChar, witWriter] [witChar]
    (by decide) (by decide) (by decide) (by decide) (by decide) (by decide) (by decide)

/-- Looking an alphabet character back up finds its own index. -/
lemma b64_indexOf_char : ∀ k < 64, b64Chars.indexOf? (b64Char k) = some k := by decide

/-- No alphabet character is the padding character. -/
lemma b64Char_ne_pad : ∀ k < 64, b64Char k ≠ '=' := by decide

/-- Decoding one full 4-character group emits the three packed bytes and
continues with the remaining characters (the accumulated high bits of
the buffer are never read back). -/
lemma decode_group (buf n : ℕ) (rest : List Char) :
    b64DecodeLoop (b64Char (n / 2 ^ 18 % 64) :: b64Char (n / 2 ^ 12 % 64) ::
        b64Char (n / 2 ^ 6 % 64) :: b64Char (n % 64) :: rest) buf 0 =
      n / 2 ^ 16 % 256 :: n / 2 ^ 8 % 256 :: n % 256 ::
        b64DecodeLoop rest (((buf * 64 + n / 2 ^ 18 % 64) * 64 + n / 2 ^ 12 % 64) * 64 * 64
          + (n / 2 ^ 6 % 64) * 64 + n % 64) 0 := by
  have m0 : n / 2 ^ 18 % 64 < 64 := Nat.mod_lt _ (by norm_num)
  have m1 : n / 2 ^ 12 % 64 < 64 := Nat.mod_lt _ (by norm_num)
  have m2 : n / 2 ^ 6 % 64 < 64 := Nat.mod_lt _ (by norm_num)
  have m3 : n % 64 < 64 := Nat.mod_lt _ (by norm_num)
  simp only [b64DecodeLoop, if_neg (b64Char_ne_pad _ m0), if_neg (b64Char_ne_pad _ m1),
    if_neg (b64Char_ne_pad _ m2), if_neg (b64Char_ne_pad _ m3),
    b64_indexOf_char _ m0, b64_indexOf_char _ m1, b64_indexOf_char _ m2,
    b64_indexOf_char _ m3]
  norm_num [List.cons.injEq]
  refine ⟨by omega, by omega, by omega, ?_⟩
  congr 1
  ring

/-- Decoding the `xx==` tail group emits the single remaining byte: the
first padding character stops the loop. -/
lemma decode_tail1 (buf b0 : ℕ) (h0 : b0 < 256) :
    b64DecodeLoop [b64Char (b0 * 2 ^ 16 / 2 ^ 18 % 64),
      b64Char (b0 * 2 ^ 16 / 2 ^ 12 % 64), '=', '='] buf 0 = [b0] := by
  have m0 : b0 * 2 ^ 16 / 2 ^ 18 % 64 < 64 := Nat.mod_lt _ (by norm_num)
  have m1 : b0 * 2 ^ 16 / 2 ^ 12 % 64 < 64 := Nat.mod_lt _ (by norm_num)
  simp only [b64DecodeLoop, if_neg (b64Char_ne_pad _ m0), if_neg (b64Char_ne_pad _ m1),
    b64_indexOf_char _ m0, b64_indexOf_char _ m1]
  norm_num [List.cons.injEq]
  omega

/-- Decoding the `xxx=` tail group emits the two remaining bytes. -/
lemma decode_tail2 (buf b0 b1 : ℕ) (h0 : b0 < 256) (h1 : b1 < 256) :
    b64DecodeLoop [b64Char ((b0 * 256 + b1) * 256 / 2 ^ 18 % 64),
      b64Char ((b0 * 256 + b1) * 256 / 2 ^ 12 % 64),
      b64Char ((b0 * 256 + b1) * 256 / 2 ^ 6 % 64), '='] buf 0 = [b0, b1] := by
  have m0 : (b0 * 256 + b1) * 256 / 2 ^ 18 % 64 < 64 := Nat.mod_lt _ (by norm_num)
  have m1 : (b0 * 256 + b1) * 256 / 2 ^ 12 % 64 < 64 := Nat.mod_lt _ (by norm_num)
  have m2 : (b0 * 256 + b1) * 256 / 2 ^ 6 % 64 < 64 := Nat.mod_lt _ (by norm_num)
  simp only [b64DecodeLoop, if_neg (b64Char_ne_pad _ m0), if_neg (b64Char_ne_pad _ m1),
    if_neg (b64Char_ne_pad _ m2),
    b64_indexOf_char _ m0, b64_indexOf_char _ m1, b64_indexOf_char _ m2]
  norm_num [List.cons.injEq]
  constructor
  · omega
  · omega

/-- Decoding an encoded byte list recovers it, for any starting buffer
content (the loop starts with zero pending bits, so stale high bits are
never emitted). -/
theorem b64_decode_encode :
    ∀ (b : List ℕ), (∀ x ∈ b, x < 256) → ∀ buf, b64DecodeLoop (b64Encode b) buf 0 = b
  | [] => fun _ _ => rfl
  | [b0] => fun h buf => by
      have h0 : b0 < 256 := h b0 (by simp)
      simp only [b64Encode]
      exact decode_tail1 buf b0 h0
  | [b0, b1] => fun h buf => by
      have h0 : b0 < 256 := h b0 (by simp)
      have h1 : b1 < 256 := h b1 (by simp)
      simp only [b64Encode]
      exact decode_tail2 buf b0 b1 h0 h1
  | b0 :: b1 :: b2 :: rest => fun h buf => by
      have h0 : b0 < 256 := h b0 (by simp)
      have h1 : b1 < 256 := h b1 (by simp)
      have h2 : b2 < 256 := h b2 (by simp)
      have hrest : ∀ x ∈ rest, x < 256 := fun x hx => h x (by simp [hx])
      simp only [b64Encode]
      rw [decode_group, b64_decode_encode rest hrest]
      simp only [List.cons.injEq]
      exact ⟨by omega, by omega, by omega, trivial⟩

/-- C10: `base64ToBytes` inverts `bytesToBase64` on every byte list
(elements below 256, the `Uint8Array` element range). -/
theorem base64_roundtrip (b : List ℕ) (h : ∀ x ∈ b, x < 256) :
    base64ToBytes (bytesToBase64 b) = b := by
  have hdata : (bytesToBase64 b).data = b64Encode b := rfl
  rw [base64ToBytes, hdata]
  exact b64_decode_encode b h 0

/-- C10 witness: a 6-byte payload spanning the byte range round-trips. -/
theorem base64_roundtrip_witness :
    base64ToBytes (bytesToBase64 [0, 1, 127, 128, 255, 7]) = [0, 1, 127, 128, 255, 7] :=
  base64_roundtrip [0, 1, 127, 128, 255, 7] (by decide)
